import Mathlib

/-!
Verification of the `safe-env` environment-variable checker.

The TypeScript source (`src/index.ts`) is embedded shallowly:

* a JS `Record<string, string | undefined>` becomes an association list
  `Source := List (String × Option String)`, kept in insertion order so that
  `Object.keys` iteration order and key filtering are faithful;
* JS property access and string truthiness become `jsGet` and `strTruthy`;
* the observable effects of a call (`console.error`, `console.warn`,
  `process.exit`) are recorded in a `CallOutcome` structure; a call that
  terminates the process has `result = none`.
-/

set_option autoImplicit false

namespace SafeEnv

/-- A JS `Record<string, string | undefined>`: an association list from string
keys to optional string values, in insertion order. -/
abbrev Source := List (String × Option String)

/-- JS property access `src[k]`: the value of the first entry whose key is `k`;
`none` when the key is absent or is mapped to `undefined`. -/
def jsGet (src : Source) (k : String) : Option String :=
  match src.find? (fun kv => kv.1 == k) with
  | none => none
  | some kv => kv.2

/-- JS `String.prototype.startsWith`: character-wise, case-sensitive prefix
test. -/
def strStartsWith (s p : String) : Bool :=
  p.data.isPrefixOf s.data

/-- JS truthiness of a `string | undefined` value: `undefined` and the empty
string are falsy, every other string is truthy. -/
def strTruthy : Option String → Bool
  | none => false
  | some s => !(s == "")

/-- The `CheckEnvOptions` record of the source: an optional key-filtering
string (`prefix` in the source; Lean reserves that word, so the field is named
`pfx`), an optional explicit source map, and an optional `exitOnError` flag
(absent means the default `true`). -/
structure CheckEnvOptions where
  pfx : Option String := none
  source : Option Source := none
  exitOnError : Option Bool := none
  deriving DecidableEq

/-- The `CheckEnvResult` record of the source. -/
structure CheckEnvResult where
  missing : List String
  success : Bool
  deriving DecidableEq

/-- The observable outcome of one call: every `console.error` write, every
`console.warn` write, the `process.exit` code when invoked, and the returned
result (`none` when the process was terminated instead of returning). -/
structure CallOutcome where
  errWrites : List String := []
  warnWrites : List String := []
  exited : Option Nat := none
  result : Option CheckEnvResult := none
  deriving DecidableEq

/-- JS `Array.prototype.join(sep)`. -/
def joinSep (sep : String) : List String → String
  | [] => ""
  | [a] => a
  | a :: b :: rest => a ++ sep ++ joinSep sep (b :: rest)

/-- `formatErrorMessage` from the source: the template literal
`"\n<banner>\n<sep>\n" + missing.map(v => "❌ " + v).join("\n") + "\n<sep>\n"`. -/
def formatErrorMessage (missing : List String) : String :=
  "\n☠️  ENVIRONMENT VARIABLES MISSING ☠️\n───────────────────────────────────\n"
    ++ joinSep "\n" (missing.map (fun v => "❌ " ++ v))
    ++ "\n───────────────────────────────────\n"

/-- `getEnvSource` from the source: use the explicit source if given, else the
ambient process environment; when the filtering string is truthy (given and
non-empty) keep only the entries whose key starts with it. -/
def getEnvSource (source : Option Source) (pfx : Option String)
    (processEnv : Source) : Source :=
  let envSource := source.getD processEnv
  match pfx with
  | none => envSource
  | some p =>
    if p == "" then envSource
    else envSource.filter (fun kv => strStartsWith kv.1 p)

/-- The `varsToCheck` computation inside `checkEnv`: when the filtering string
is truthy, narrow the required names to those that start with it. -/
def varsToCheck (requiredVars : List String) (pfx : Option String) :
    List String :=
  match pfx with
  | none => requiredVars
  | some p =>
    if p == "" then requiredVars
    else requiredVars.filter (fun v => strStartsWith v p)

/-- The `missing` list `checkEnv` computes: the checked names whose value in
the resolved source is falsy. -/
def missingVars (requiredVars : List String) (options : CheckEnvOptions)
    (processEnv : Source) : List String :=
  (varsToCheck requiredVars options.pfx).filter
    (fun v => !strTruthy (jsGet (getEnvSource options.source options.pfx processEnv) v))

/-- `checkEnv` from the source.  `processEnv` stands for the ambient
`process.env` map.  On failure with `exitOnError` (default `true`) the
diagnostic goes to `console.error` and the process exits with code 1 (so no
result is returned); on failure without it the diagnostic goes to
`console.warn` and the result is returned; on success the result is returned
silently. -/
def checkEnv (requiredVars : List String) (options : CheckEnvOptions)
    (processEnv : Source) : CallOutcome :=
  let exitOnError := options.exitOnError.getD true
  let missing := missingVars requiredVars options processEnv
  let success := missing.length == 0
  if !success && exitOnError then
    { errWrites := [formatErrorMessage missing], exited := some 1, result := none }
  else if !success && !exitOnError then
    { warnWrites := [formatErrorMessage missing],
      result := some ⟨missing, success⟩ }
  else
    { result := some ⟨missing, success⟩ }

/-- `checkEnvSafe` from the source: delegate to `checkEnv` with `exitOnError`
forced to `false`. -/
def checkEnvSafe (requiredVars : List String) (options : CheckEnvOptions)
    (processEnv : Source) : CallOutcome :=
  checkEnv requiredVars { options with exitOnError := some false } processEnv

/-- `checkEnvSource` from the source: the required names are `Object.keys` of
the given map, and the options' source field is overridden with that map. -/
def checkEnvSource (source : Source) (options : CheckEnvOptions)
    (processEnv : Source) : CallOutcome :=
  let requiredVars := source.map (fun kv => kv.1)
  checkEnv requiredVars { options with source := some source } processEnv

/-- Spec-side predicate: a name counts as missing when its looked-up value is
absent or the empty string. -/
def specAbsentOrEmpty (src : Source) (v : String) : Bool :=
  decide (jsGet src v = none ∨ jsGet src v = some "")

/-- Spec-side missing list for the no-filtering case: the subsequence of the
required names whose looked-up value is absent or empty, in original order. -/
def specMissing (req : List String) (src : Source) : List String :=
  req.filter (fun v => specAbsentOrEmpty src v)

/-- Spec-side direct evaluation for the refinement claim: narrow the required
names by the filtering string, then look them up in the UNFILTERED source. -/
def evalUnfiltered (req : List String) (src : Source) (p : String) :
    List String :=
  (req.filter (fun v => strStartsWith v p)).filter
    (fun v => !strTruthy (jsGet src v))

/-! ### Helper lemmas -/

theorem not_strTruthy (o : Option String) :
    (!strTruthy o) = decide (o = none ∨ o = some "") := by
  cases o with
  | none => simp [strTruthy]
  | some s =>
    by_cases hs : s = "" <;> simp [strTruthy, hs]

theorem missingVars_eq_specMissing (req : List String) (src pe : Source)
    (eoe : Option Bool) :
    missingVars req { pfx := none, source := some src, exitOnError := eoe } pe
      = specMissing req src := by
  unfold missingVars specMissing varsToCheck getEnvSource
  apply List.filter_congr
  intro v hv
  simp only [not_strTruthy, specAbsentOrEmpty, Option.getD]

theorem checkEnv_result_noExit (req : List String) (o : CheckEnvOptions)
    (pe : Source) (h : o.exitOnError = some false) :
    (checkEnv req o pe).result
      = some ⟨missingVars req o pe, (missingVars req o pe).length == 0⟩ := by
  unfold checkEnv
  simp only [h, Option.getD_some, Bool.and_false]
  cases hm : missingVars req o pe <;> simp

theorem checkEnv_of_noMissing (req : List String) (o : CheckEnvOptions)
    (pe : Source) (h : missingVars req o pe = []) :
    checkEnv req o pe
      = { errWrites := [], warnWrites := [], exited := none,
          result := some ⟨[], true⟩ } := by
  unfold checkEnv
  simp [h]

theorem checkEnv_of_exit (req : List String) (o : CheckEnvOptions)
    (pe : Source) (he : o.exitOnError.getD true = true)
    (hm : missingVars req o pe ≠ []) :
    checkEnv req o pe
      = { errWrites := [formatErrorMessage (missingVars req o pe)],
          warnWrites := [], exited := some 1, result := none } := by
  unfold checkEnv
  simp [he, hm]

theorem checkEnv_result_all (req : List String) (o : CheckEnvOptions)
    (pe : Source) :
    ((checkEnv req o pe).result.all
      (fun r => r.success == (r.missing.length == 0))) = true := by
  cases hm : missingVars req o pe with
  | nil => simp [checkEnv, hm, Option.all]
  | cons a l =>
    cases he : o.exitOnError.getD true <;>
      simp [checkEnv, hm, he, Option.all]


/-! ### Claim theorems -/

/-- C1: with no key-filtering string and `exitOnError = false`, `checkEnv` on an
explicit source returns a result whose `missing` field is exactly the
subsequence of the required names (in original order, duplicates kept) whose
looked-up value is absent or empty, and whose `success` field equals
`missing.length == 0`. -/
theorem checkEnv_noPrefix_spec (req : List String) (src pe : Source) :
    (checkEnv req { pfx := none, source := some src, exitOnError := some false } pe).result
      = some ⟨specMissing req src, (specMissing req src).length == 0⟩ := by
  rw [checkEnv_result_noExit _ _ _ rfl,
    missingVars_eq_specMissing req src pe (some false)]

/-- C2: for every input and every entry variant, whenever a result is returned
its `success` field equals the emptiness test of its `missing` field. -/
theorem result_success_matches_missing (req : List String) (o : CheckEnvOptions)
    (src pe : Source) :
    ((checkEnv req o pe).result.all
      (fun r => r.success == (r.missing.length == 0))) = true ∧
    ((checkEnvSafe req o pe).result.all
      (fun r => r.success == (r.missing.length == 0))) = true ∧
    ((checkEnvSource src o pe).result.all
      (fun r => r.success == (r.missing.length == 0))) = true := by
  refine ⟨checkEnv_result_all req o pe,
    checkEnv_result_all req { o with exitOnError := some false } pe, ?_⟩
  show ((checkEnv (src.map (fun kv => kv.1)) { o with source := some src }
      pe).result.all (fun r => r.success == (r.missing.length == 0))) = true
  exact checkEnv_result_all _ _ _

/-- C3: with a non-empty key-filtering string, every name in the returned
`missing` list starts with that string; a required name that does not start
with it never appears in `missing`, even if wholly absent from the source. -/
theorem missing_all_match_prefix (req : List String) (src pe : Source)
    (p : String) (hp : p ≠ "") (r : CheckEnvResult)
    (hr : (checkEnv req { pfx := some p, source := some src, exitOnError := some false } pe).result
            = some r)
    (n : String) (hn : n ∈ r.missing) : strStartsWith n p = true := by
  rw [checkEnv_result_noExit _ _ _ rfl] at hr
  have h2 := Option.some.inj hr
  subst h2
  have h3 : n ∈ varsToCheck req (some p) := List.mem_of_mem_filter hn
  simp only [varsToCheck] at h3
  rw [if_neg (by simp [hp])] at h3
  exact (List.mem_filter.mp h3).2

/-- C4: `checkEnvSafe` never invokes process termination, whatever the options
say, and it returns exactly what `checkEnv` returns with `exitOnError` forced
to `false`. -/
theorem checkEnvSafe_never_exits (req : List String) (o : CheckEnvOptions)
    (pe : Source) :
    (checkEnvSafe req o pe).exited = none ∧
    checkEnvSafe req o pe
      = checkEnv req { o with exitOnError := some false } pe := by
  refine ⟨?_, rfl⟩
  show (checkEnv req { o with exitOnError := some false } pe).exited = none
  cases hm : missingVars req { o with exitOnError := some false } pe with
  | nil => simp [checkEnv, hm]
  | cons a l => simp [checkEnv, hm]

/-- C5: when the computed missing list is non-empty and `exitOnError` holds
(the default), `checkEnv` writes the formatted block to the error channel and
terminates the process with exit status 1, returning no result; and the
termination primitive is never invoked with any code other than 1. -/
theorem checkEnv_exit_contract :
    (∀ (req : List String) (o : CheckEnvOptions) (pe : Source),
        o.exitOnError.getD true = true → missingVars req o pe ≠ [] →
        checkEnv req o pe
          = { errWrites := [formatErrorMessage (missingVars req o pe)],
              warnWrites := [], exited := some 1, result := none }) ∧
    (∀ (req : List String) (o : CheckEnvOptions) (pe : Source),
        (checkEnv req o pe).exited = none ∨
        (checkEnv req o pe).exited = some 1) := by
  refine ⟨checkEnv_of_exit, ?_⟩
  intro req o pe
  cases hm : missingVars req o pe with
  | nil => left; simp [checkEnv, hm]
  | cons a l =>
    cases he : o.exitOnError.getD true
    · left; simp [checkEnv, hm, he]
    · right; simp [checkEnv, hm, he]

/-- C5 witness: `checkEnv ["MISSING"]` under default options and an empty
environment writes the block to the error channel and exits with status 1. -/
theorem checkEnv_exit_contract_witness :
    checkEnv ["MISSING"] {} []
      = { errWrites := [formatErrorMessage ["MISSING"]], warnWrites := [],
          exited := some 1, result := none } :=
  checkEnv_exit_contract.1 ["MISSING"] {} [] rfl (by decide)

/-- C7: whenever the computed missing list is empty — in particular for an
empty required-name list — nothing is written on either channel, the process
is not terminated, and the call returns `{ missing := [], success := true }`. -/
theorem checkEnv_silent_on_success (req : List String) (o : CheckEnvOptions)
    (pe : Source) (h : missingVars req o pe = []) :
    checkEnv req o pe
      = { errWrites := [], warnWrites := [], exited := none,
          result := some ⟨[], true⟩ } :=
  checkEnv_of_noMissing req o pe h

/-- C7 witness: the empty required list against a populated source and default
options returns successfully with no diagnostic. -/
theorem checkEnv_silent_on_success_witness :
    checkEnv [] { source := some [("A", some "x")] } []
      = { errWrites := [], warnWrites := [], exited := none,
          result := some ⟨[], true⟩ } :=
  checkEnv_silent_on_success [] { source := some [("A", some "x")] } [] rfl

/-- C10: an empty key-filtering string behaves exactly like no filtering
string at all: `checkEnv` on an explicit source returns identical outcomes. -/
theorem emptyPrefix_eq_noPrefix (req : List String) (src : Source)
    (eoe : Option Bool) (pe : Source) :
    checkEnv req { pfx := some "", source := some src, exitOnError := eoe } pe
      = checkEnv req { pfx := none, source := some src, exitOnError := eoe } pe := rfl


/-- C3 witness: with filtering string "PRE_" and an empty source, the reported
missing name "PRE_DB" indeed starts with "PRE_" (and "OTHER" was dropped). -/
theorem missing_all_match_prefix_witness : strStartsWith "PRE_DB" "PRE_" = true :=
  missing_all_match_prefix ["PRE_DB", "OTHER"] [] [] "PRE_" (by decide)
    ⟨["PRE_DB"], false⟩ (by decide) "PRE_DB" (by decide)

/-- Looking a key up in the key-filtered map agrees with looking it up in the
raw map, provided the key itself starts with the filtering string. -/
theorem jsGet_filter (src : Source) (p v : String)
    (hv : strStartsWith v p = true) :
    jsGet (src.filter (fun kv => strStartsWith kv.1 p)) v = jsGet src v := by
  induction src with
  | nil => rfl
  | cons kv rest ih =>
    by_cases hk : (kv.1 == v) = true
    · have hkv : kv.1 = v := by simpa using hk
      have hkp : strStartsWith kv.1 p = true := by rw [hkv]; exact hv
      simp [jsGet, List.filter_cons, hkp, List.find?, hk]
    · by_cases hp2 : strStartsWith kv.1 p = true
      · simp only [List.filter_cons, hp2, if_true]
        simp only [jsGet, List.find?, hk] at ih ⊢
        exact ih
      · simp only [List.filter_cons, hp2, Bool.false_eq_true, if_false]
        rw [ih]
        simp only [jsGet, List.find?, hk]

/-- C9: filtering the source map by the key-filtering string is redundant:
`checkEnv` with a non-empty filtering string returns exactly the result of
looking the narrowed required names up in the UNFILTERED source, because every
surviving name starts with the string and resolves identically in both maps. -/
theorem prefix_filter_on_source_redundant (req : List String) (src pe : Source)
    (p : String) (hp : p ≠ "") :
    (checkEnv req { pfx := some p, source := some src, exitOnError := some false } pe).result
      = some ⟨evalUnfiltered req src p, (evalUnfiltered req src p).length == 0⟩ := by
  have key : missingVars req
      { pfx := some p, source := some src, exitOnError := some false } pe
      = evalUnfiltered req src p := by
    have hpb : (p == "") = false := by simp [hp]
    unfold missingVars varsToCheck getEnvSource evalUnfiltered
    simp only [hpb, Bool.false_eq_true, if_false, Option.getD_some]
    apply List.filter_congr
    intro v hv
    rw [jsGet_filter src p v (List.mem_filter.mp hv).2]
  rw [checkEnv_result_noExit _ _ _ rfl, key]

/-- C9 witness: a concrete instance with a matched present key, a matched
absent key and an unmatched key. -/
theorem prefix_filter_on_source_redundant_witness :
    (checkEnv ["P_A", "P_B", "C"]
        { pfx := some "P_", source := some [("P_A", some "1"), ("C", none)],
          exitOnError := some false } []).result
      = some ⟨evalUnfiltered ["P_A", "P_B", "C"] [("P_A", some "1"), ("C", none)] "P_",
              (evalUnfiltered ["P_A", "P_B", "C"]
                [("P_A", some "1"), ("C", none)] "P_").length == 0⟩ :=
  prefix_filter_on_source_redundant ["P_A", "P_B", "C"]
    [("P_A", some "1"), ("C", none)] [] "P_" (by decide)

theorem joinSep_cons (sep x : String) (l : List String) (h : l ≠ []) :
    joinSep sep (x :: l) = x ++ sep ++ joinSep sep l := by
  cases l with
  | nil => exact absurd rfl h
  | cons b rest => rfl

theorem joinSep_append (sep : String) (l1 l2 : List String)
    (h1 : l1 ≠ []) (h2 : l2 ≠ []) :
    joinSep sep (l1 ++ l2) = joinSep sep l1 ++ sep ++ joinSep sep l2 := by
  induction l1 with
  | nil => exact absurd rfl h1
  | cons x rest ih =>
    cases rest with
    | nil =>
      rw [List.singleton_append, joinSep_cons sep x l2 h2]
      rfl
    | cons b rest2 =>
      rw [List.cons_append, joinSep_cons sep x ((b :: rest2) ++ l2) (by simp),
        ih (by simp), joinSep_cons sep x (b :: rest2) (by simp)]
      simp [String.append_assoc]


/-- C8: for every non-empty missing list, each channel receives at most one
write (the block is emitted as a single string), and the block is the
newline-join of: an opening empty line, the banner line, a separator line, one
marker-prefixed line per missing name in `missing` order, a closing separator
line identical to the opener, and a final empty line. -/
theorem formatErrorMessage_block (missing : List String) (hm : missing ≠ []) :
    formatErrorMessage missing
      = joinSep "\n"
          (["", "☠️  ENVIRONMENT VARIABLES MISSING ☠️",
              "───────────────────────────────────"]
            ++ missing.map (fun v => "❌ " ++ v)
            ++ ["───────────────────────────────────", ""]) ∧
    (∀ (req : List String) (o : CheckEnvOptions) (pe : Source),
        (checkEnv req o pe).errWrites.length ≤ 1 ∧
        (checkEnv req o pe).warnWrites.length ≤ 1) := by
  constructor
  · have hM : missing.map (fun v => "❌ " ++ v) ≠ [] := by simpa using hm
    have hshape :
        (["", "☠️  ENVIRONMENT VARIABLES MISSING ☠️",
            "───────────────────────────────────"]
          ++ missing.map (fun v => "❌ " ++ v)
          ++ ["───────────────────────────────────", ""])
        = "" :: "☠️  ENVIRONMENT VARIABLES MISSING ☠️"
            :: "───────────────────────────────────"
            :: (missing.map (fun v => "❌ " ++ v)
                ++ ["───────────────────────────────────", ""]) := by
      simp
    have hT : joinSep "\n" ["───────────────────────────────────", ""]
        = "───────────────────────────────────" ++ "\n" ++ "" := rfl
    have hA : ("\n☠️  ENVIRONMENT VARIABLES MISSING ☠️\n───────────────────────────────────\n" : String)
        = "" ++ "\n" ++ "☠️  ENVIRONMENT VARIABLES MISSING ☠️" ++ "\n"
            ++ "───────────────────────────────────" ++ "\n" := by decide
    have hB : ("\n───────────────────────────────────\n" : String)
        = "\n" ++ "───────────────────────────────────" ++ "\n" ++ "" := by decide
    rw [hshape, joinSep_cons _ _ _ (by simp), joinSep_cons _ _ _ (by simp),
      joinSep_cons _ _ _ (by simp), joinSep_append _ _ _ hM (by simp), hT]
    unfold formatErrorMessage
    rw [hA, hB]
    simp only [String.append_assoc, String.empty_append, String.append_empty]
  · intro req o pe
    cases hm2 : missingVars req o pe with
    | nil => simp [checkEnv, hm2]
    | cons a l =>
      cases he : o.exitOnError.getD true <;> simp [checkEnv, hm2, he]

/-- C8 witness: the block for two missing names, spelled out. -/
theorem formatErrorMessage_block_witness :
    formatErrorMessage ["DATABASE_URL", "API_KEY"]
      = joinSep "\n"
          (["", "☠️  ENVIRONMENT VARIABLES MISSING ☠️",
              "───────────────────────────────────"]
            ++ ["DATABASE_URL", "API_KEY"].map (fun v => "❌ " ++ v)
            ++ ["───────────────────────────────────", ""]) :=
  (formatErrorMessage_block ["DATABASE_URL", "API_KEY"] (by decide)).1

/-- C6 counterexample: `checkEnvSource` on the map `{A: undefined}` with a
filtering string `"B_"` in the options reports nothing missing, although the
key `A` has an absent value — so the claim that every key with an
absent-or-empty value is reported missing fails once the options carry a
filtering string. -/
theorem checkEnvSource_prefix_counterexample :
    (checkEnvSource [("A", none)]
        { pfx := some "B_", exitOnError := some false } []).result
      = some ⟨[], true⟩ ∧
    jsGet [("A", none)] "A" = none := by
  exact ⟨by decide, rfl⟩

/-- C6 (amended): when the passed options carry NO key-filtering string,
`checkEnvSource` requires exactly the keys of the given map in its iteration
order, overrides the options' source field with the map, its computed missing
list is exactly the keys whose value is absent or empty, and with
`exitOnError = false` that list is returned together with its emptiness flag. -/
theorem checkEnvSource_noPrefix_spec (src : Source) (o : CheckEnvOptions)
    (pe : Source) (hp : o.pfx = none) :
    checkEnvSource src o pe
      = checkEnv (src.map (fun kv => kv.1)) { o with source := some src } pe ∧
    missingVars (src.map (fun kv => kv.1)) { o with source := some src } pe
      = specMissing (src.map (fun kv => kv.1)) src ∧
    (o.exitOnError = some false →
      (checkEnvSource src o pe).result
        = some ⟨specMissing (src.map (fun kv => kv.1)) src,
                (specMissing (src.map (fun kv => kv.1)) src).length == 0⟩) := by
  obtain ⟨opfx, osrc, oeoe⟩ := o
  simp only at hp
  subst hp
  refine ⟨rfl, missingVars_eq_specMissing _ _ _ _, ?_⟩
  intro he
  simp only at he
  subst he
  show (checkEnv (src.map (fun kv => kv.1))
      { pfx := none, source := some src, exitOnError := some false } pe).result = _
  rw [checkEnv_result_noExit _ _ _ rfl,
    missingVars_eq_specMissing (src.map (fun kv => kv.1)) src pe (some false)]

/-- C6 witness: scenario D of the spec — `{API_KEY: "k", SECRET: undefined}`
with `exitOnError = false` returns `missing = ["SECRET"]`. -/
theorem checkEnvSource_noPrefix_spec_witness :
    (checkEnvSource [("API_KEY", some "k"), ("SECRET", none)]
        { exitOnError := some false } []).result
      = some ⟨specMissing
                ([("API_KEY", some "k"), ("SECRET", none)].map (fun kv => kv.1))
                [("API_KEY", some "k"), ("SECRET", none)],
              (specMissing
                ([("API_KEY", some "k"), ("SECRET", none)].map (fun kv => kv.1))
                [("API_KEY", some "k"), ("SECRET", none)]).length == 0⟩ :=
  (checkEnvSource_noPrefix_spec [("API_KEY", some "k"), ("SECRET", none)]
    { exitOnError := some false } [] rfl).2.2 rfl

end SafeEnv
